import Mathlib

/-!
Verification development for the mezuri provenance toolchain.

The embedding covers:
* `Version`, `VersionTag` and their string (de)serialization — the version
  model (`common/constructs.py` is not part of the provided sources, so these
  are modelled from the specification document, §3/§4.1/§6);
* the registry server (`src/registry/app.py`): `fetch_remote_spec`,
  `OperatorListAPI.post`, `OperatorVersionListAPI.post` and the read-only
  endpoints, over an explicit store state;
* the CLI client workflows (`src/cli/utils.py`): `component_init`,
  `component_commit`, `component_publish`, with an explicit client state
  capturing the git repository effects (tags, commits, staging, pushes),
  the on-disk specification file, and registry calls.

Machine-external effects (git subprocesses, network push, interactive
input) are passed in as explicit environment parameters.
-/

/-! ### Decimal digits and number (de)serialization -/

/-- Decimal digit character for a digit value (values above 9 clamp to '9'). -/
def digitChar (d : Nat) : Char :=
  match d with
  | 0 => '0' | 1 => '1' | 2 => '2' | 3 => '3' | 4 => '4'
  | 5 => '5' | 6 => '6' | 7 => '7' | 8 => '8' | _ => '9'

/-- Numeric value of a list of decimal digit characters (most significant first). -/
def digitsVal (l : List Char) : Nat :=
  l.foldl (fun a c => a * 10 + (c.toNat - 48)) 0

/-- Fuel-driven decimal rendering of a natural number (fuel bounds recursion
depth so the definition is structural and kernel-reducible). -/
def natCharsFuel : Nat → Nat → List Char
  | 0, _ => []
  | fuel + 1, n =>
    if n < 10 then [digitChar n]
    else natCharsFuel fuel (n / 10) ++ [digitChar (n % 10)]

/-- Decimal rendering of a natural number, most significant digit first. -/
def natChars (n : Nat) : List Char := natCharsFuel (n + 1) n

/-- Parse a non-empty all-digit character list into a natural number. -/
def parseNatChars (l : List Char) : Option Nat :=
  if l.isEmpty then none
  else if l.all (fun c => c.isDigit) then some (digitsVal l)
  else none

theorem digitChar_toNat {d : Nat} (h : d < 10) : (digitChar d).toNat = 48 + d := by
  interval_cases d <;> rfl

theorem digitChar_isDigit (d : Nat) : (digitChar d).isDigit = true := by
  rcases d with _ | _ | _ | _ | _ | _ | _ | _ | _ | d <;> rfl

theorem digitsVal_append_singleton (l : List Char) (c : Char) :
    digitsVal (l ++ [c]) = digitsVal l * 10 + (c.toNat - 48) := by
  simp [digitsVal, List.foldl_append]

theorem natCharsFuel_spec :
    ∀ fuel n, n < fuel →
      natCharsFuel fuel n ≠ [] ∧
      (∀ c ∈ natCharsFuel fuel n, c.isDigit = true) ∧
      digitsVal (natCharsFuel fuel n) = n := by
  intro fuel
  induction fuel with
  | zero => intro n h; omega
  | succ f ih =>
    intro n hn
    by_cases h10 : n < 10
    · refine ⟨by simp [natCharsFuel, h10], ?_, ?_⟩
      · intro c hc
        simp [natCharsFuel, h10] at hc
        subst hc
        exact digitChar_isDigit n
      · simp [natCharsFuel, h10, digitsVal, digitChar_toNat h10]
    · have hrec : n / 10 < f := by omega
      obtain ⟨hne, hdig, hval⟩ := ih (n / 10) hrec
      refine ⟨by simp [natCharsFuel, h10], ?_, ?_⟩
      · intro c hc
        simp only [natCharsFuel, h10, if_false, List.mem_append, List.mem_singleton] at hc
        rcases hc with hc | hc
        · exact hdig c hc
        · subst hc
          exact digitChar_isDigit (n % 10)
      · have hm : n % 10 < 10 := Nat.mod_lt _ (by omega)
        simp only [natCharsFuel, h10, if_false]
        rw [digitsVal_append_singleton, hval, digitChar_toNat hm]
        omega

theorem natChars_ne_nil (n : Nat) : natChars n ≠ [] :=
  (natCharsFuel_spec (n + 1) n (Nat.lt_succ_self n)).1

theorem natChars_digits (n : Nat) : ∀ c ∈ natChars n, c.isDigit = true :=
  (natCharsFuel_spec (n + 1) n (Nat.lt_succ_self n)).2.1

theorem digitsVal_natChars (n : Nat) : digitsVal (natChars n) = n :=
  (natCharsFuel_spec (n + 1) n (Nat.lt_succ_self n)).2.2

theorem parseNatChars_natChars (n : Nat) : parseNatChars (natChars n) = some n := by
  have hne := natChars_ne_nil n
  have hdig := natChars_digits n
  have hv := digitsVal_natChars n
  simp only [parseNatChars]
  rw [if_neg (by simpa [List.isEmpty_iff] using hne),
      if_pos (by simpa [List.all_eq_true] using hdig), hv]

theorem isDigit_ne_dot {c : Char} (h : c.isDigit = true) : c ≠ '.' := by
  rintro rfl; exact absurd h (by decide)

theorem isDigit_ne_slash {c : Char} (h : c.isDigit = true) : c ≠ '/' := by
  rintro rfl; exact absurd h (by decide)

/-! ### Splitting a character list on a separator -/

/-- Split a character list at every occurrence of a separator character
(so that joining the pieces with the separator restores the input). -/
def splitChar (sep : Char) : List Char → List (List Char)
  | [] => [[]]
  | c :: cs =>
    if c = sep then [] :: splitChar sep cs
    else
      match splitChar sep cs with
      | [] => [[c]]
      | p :: ps => (c :: p) :: ps

theorem splitChar_sep_cons (sep : Char) (l : List Char) :
    splitChar sep (sep :: l) = [] :: splitChar sep l := by
  simp [splitChar]

theorem splitChar_cons_ne (sep c : Char) (cs : List Char) (h : c ≠ sep) :
    splitChar sep (c :: cs) =
      match splitChar sep cs with
      | [] => [[c]]
      | p :: ps => (c :: p) :: ps := by
  simp [splitChar, h]

theorem splitChar_ne_nil (sep : Char) (l : List Char) : splitChar sep l ≠ [] := by
  induction l with
  | nil => simp [splitChar]
  | cons c cs ih =>
    by_cases h : c = sep
    · subst h
      simp [splitChar_sep_cons]
    · rw [splitChar_cons_ne sep c cs h]
      cases hs : splitChar sep cs with
      | nil => simp
      | cons p ps => simp

theorem splitChar_no_sep {sep : Char} {l : List Char} (h : sep ∉ l) :
    splitChar sep l = [l] := by
  induction l with
  | nil => rfl
  | cons c cs ih =>
    have hc : c ≠ sep := fun e => h (by simp [e])
    have hcs : sep ∉ cs := fun e => h (by simp [e])
    rw [splitChar_cons_ne sep c cs hc, ih hcs]

theorem splitChar_append {sep : Char} {xs : List Char} (ys : List Char)
    (h : sep ∉ xs) :
    splitChar sep (xs ++ sep :: ys) = xs :: splitChar sep ys := by
  induction xs with
  | nil => simp [splitChar_sep_cons]
  | cons c cs ih =>
    have hc : c ≠ sep := fun e => h (by simp [e])
    have hcs : sep ∉ cs := fun e => h (by simp [e])
    rw [List.cons_append, splitChar_cons_ne sep c _ hc, ih hcs]

/-! ### Version model

Modelled from the spec: `common/constructs.py` (the `Version` and
`VersionTag` classes) is not among the provided sources; the definitions
below follow spec §3 ("ordered tuple (major, minor, patch, optional
update-counter)", total order "lexicographic on the tuple"), §4.1 and §6
(tag string `"mezuri/{componentType}/{version}"`, which matches the
`TAG_NAME_FORMAT` constant in `src/cli/utils.py`). -/

/-- Modelled from the spec: a semantic version — ordered tuple
(major, minor, patch, optional update-counter; default 0). -/
structure Version where
  major : Nat
  minor : Nat
  patch : Nat
  update : Nat
  deriving DecidableEq, Repr

/-- Modelled from the spec: the default component version `0.0.0`. -/
def DEFAULT_VERSION : Version := ⟨0, 0, 0, 0⟩

/-- Modelled from the spec: strict total order on versions — lexicographic
on (major, minor, patch, updateCounter). -/
def verLt (a b : Version) : Prop :=
  a.major < b.major ∨
    (a.major = b.major ∧
      (a.minor < b.minor ∨
        (a.minor = b.minor ∧
          (a.patch < b.patch ∨ (a.patch = b.patch ∧ a.update < b.update)))))

instance decVerLt (a b : Version) : Decidable (verLt a b) := by
  unfold verLt; infer_instance

/-- Modelled from the spec: non-strict order on versions. -/
def verLe (a b : Version) : Prop := verLt a b ∨ a = b

instance decVerLe (a b : Version) : Decidable (verLe a b) := by
  unfold verLe; infer_instance

theorem verLt_irrefl (a : Version) : ¬ verLt a a := by
  obtain ⟨a1, a2, a3, a4⟩ := a
  simp only [verLt]
  omega

theorem verLe_refl (a : Version) : verLe a a := Or.inr rfl

theorem verLe_of_verLt {a b : Version} (h : verLt a b) : verLe a b := Or.inl h

theorem verLt_ne {a b : Version} (h : verLt a b) : a ≠ b := by
  rintro rfl; exact verLt_irrefl a h

theorem not_verLe_iff (a b : Version) : ¬ verLe a b ↔ verLt b a := by
  obtain ⟨a1, a2, a3, a4⟩ := a
  obtain ⟨b1, b2, b3, b4⟩ := b
  simp only [verLe, verLt, Version.mk.injEq]
  omega

theorem verLe_trans {a b c : Version} (h1 : verLe a b) (h2 : verLe b c) :
    verLe a c := by
  obtain ⟨a1, a2, a3, a4⟩ := a
  obtain ⟨b1, b2, b3, b4⟩ := b
  obtain ⟨c1, c2, c3, c4⟩ := c
  simp only [verLe, verLt, Version.mk.injEq] at h1 h2 ⊢
  omega

theorem not_verLe_of_verLt {a b : Version} (h : verLt a b) : ¬ verLe b a :=
  (not_verLe_iff b a).mpr h

theorem verLe_of_not_verLt {a b : Version} (h : ¬ verLt a b) : verLe b a := by
  obtain ⟨a1, a2, a3, a4⟩ := a
  obtain ⟨b1, b2, b3, b4⟩ := b
  simp only [verLe, verLt, Version.mk.injEq] at h ⊢
  omega

/-- Decimal rendering of a version: `major.minor.patch`, with a fourth
`.update` component when the update counter is nonzero.
Modelled from the spec: the concrete grammar of the update counter is not
shown in the provided sources; the choice only needs serialization and
parsing to be mutually consistent. -/
def versionChars (v : Version) : List Char :=
  natChars v.major ++ '.' :: (natChars v.minor ++ '.' :: (natChars v.patch ++
    (if v.update = 0 then [] else '.' :: natChars v.update)))

/-- Modelled from the spec: `str()` of a version. -/
def serializeVersion (v : Version) : String := String.mk (versionChars v)

/-- Modelled from the spec: parse a version string body (3 or 4 dot-separated
decimal components). -/
def parseVersionChars (l : List Char) : Option Version :=
  match splitChar '.' l with
  | [a, b, c] =>
    match parseNatChars a, parseNatChars b, parseNatChars c with
    | some x, some y, some z => some ⟨x, y, z, 0⟩
    | _, _, _ => none
  | [a, b, c, d] =>
    match parseNatChars a, parseNatChars b, parseNatChars c, parseNatChars d with
    | some x, some y, some z, some u => some ⟨x, y, z, u⟩
    | _, _, _, _ => none
  | _ => none

theorem versionChars_mem {v : Version} {c : Char} (h : c ∈ versionChars v) :
    c.isDigit = true ∨ c = '.' := by
  by_cases hu : v.update = 0
  · simp only [versionChars] at h
    rw [if_pos hu] at h
    simp only [List.append_nil, List.mem_append, List.mem_cons] at h
    rcases h with h | rfl | h | rfl | h
    · exact Or.inl (natChars_digits _ _ h)
    · exact Or.inr rfl
    · exact Or.inl (natChars_digits _ _ h)
    · exact Or.inr rfl
    · exact Or.inl (natChars_digits _ _ h)
  · simp only [versionChars] at h
    rw [if_neg hu] at h
    simp only [List.mem_append, List.mem_cons] at h
    rcases h with h | rfl | h | rfl | h | rfl | h
    · exact Or.inl (natChars_digits _ _ h)
    · exact Or.inr rfl
    · exact Or.inl (natChars_digits _ _ h)
    · exact Or.inr rfl
    · exact Or.inl (natChars_digits _ _ h)
    · exact Or.inr rfl
    · exact Or.inl (natChars_digits _ _ h)

theorem slash_not_mem_versionChars (v : Version) : '/' ∉ versionChars v := by
  intro h
  rcases versionChars_mem h with h | h
  · exact isDigit_ne_slash h rfl
  · exact absurd h (by decide)

theorem dot_not_mem_natChars (n : Nat) : '.' ∉ natChars n := by
  intro h
  exact isDigit_ne_dot (natChars_digits n _ h) rfl

theorem parseVersionChars_versionChars (v : Version) :
    parseVersionChars (versionChars v) = some v := by
  by_cases hu : v.update = 0
  · have h1 : splitChar '.' (versionChars v) =
        [natChars v.major, natChars v.minor, natChars v.patch] := by
      simp only [versionChars]
      rw [if_pos hu, List.append_nil,
          splitChar_append _ (dot_not_mem_natChars v.major),
          splitChar_append _ (dot_not_mem_natChars v.minor),
          splitChar_no_sep (dot_not_mem_natChars v.patch)]
    simp only [parseVersionChars, h1, parseNatChars_natChars]
    rw [← hu]
  · have h1 : splitChar '.' (versionChars v) =
        [natChars v.major, natChars v.minor, natChars v.patch, natChars v.update] := by
      simp only [versionChars]
      rw [if_neg hu,
          splitChar_append _ (dot_not_mem_natChars v.major),
          splitChar_append _ (dot_not_mem_natChars v.minor),
          splitChar_append _ (dot_not_mem_natChars v.patch),
          splitChar_no_sep (dot_not_mem_natChars v.update)]
    simp only [parseVersionChars, h1, parseNatChars_natChars]

/-! ### Version tags -/

/-- Modelled from the spec: a version tag — (componentType, componentName,
Version).  The component name is `none` for tags recovered by parsing,
because the tag string format does not encode it. -/
structure VersionTag where
  componentType : String
  componentName : Option String
  version : Version
  deriving DecidableEq, Repr

/-- Tag name string: `mezuri/{component_type}/{version}` — the
`TAG_NAME_FORMAT` of `src/cli/utils.py`. -/
def serializeTag (t : VersionTag) : String :=
  String.mk ("mezuri".data ++ '/' :: (t.componentType.data ++ '/' :: versionChars t.version))

/-- Modelled from the spec: `VersionTag.parse` — accepts strings matching
`"mezuri/<componentType>/<version>"`; the component name is not encoded in
the string, so the parsed tag carries none. -/
def VersionTag.parse (s : String) : Option VersionTag :=
  match splitChar '/' s.data with
  | [ns, ct, vs] =>
    if ns = "mezuri".data then
      (parseVersionChars vs).map (fun v => ⟨String.mk ct, none, v⟩)
    else none
  | _ => none

/-- Modelled from the spec: `withIncrementedUpdateNum` — same
(type, name, major.minor.patch), update counter + 1. -/
def VersionTag.withIncrementedUpdateNum (t : VersionTag) : VersionTag :=
  { t with version := { t.version with update := t.version.update + 1 } }

theorem VersionTag.parse_serializeTag (t : VersionTag)
    (h : '/' ∉ t.componentType.data) :
    VersionTag.parse (serializeTag t) = some ⟨t.componentType, none, t.version⟩ := by
  have hm : '/' ∉ "mezuri".data := by decide
  have hsplit : splitChar '/' (serializeTag t).data =
      ["mezuri".data, t.componentType.data, versionChars t.version] := by
    show splitChar '/' ("mezuri".data ++ '/' :: (t.componentType.data ++
      '/' :: versionChars t.version)) = _
    rw [splitChar_append _ hm, splitChar_append _ h,
        splitChar_no_sep (slash_not_mem_versionChars t.version)]
  simp only [VersionTag.parse, hsplit, if_true, parseVersionChars_versionChars]
  rfl

theorem serializeTag_version_inj {t u : VersionTag}
    (ht : '/' ∉ t.componentType.data) (hu : '/' ∉ u.componentType.data)
    (h : serializeTag t = serializeTag u) : t.version = u.version := by
  have h1 := VersionTag.parse_serializeTag t ht
  rw [h, VersionTag.parse_serializeTag u hu] at h1
  simp only [Option.some.injEq, VersionTag.mk.injEq] at h1
  exact h1.2.2.symm

/-- Python `max` over a non-empty sequence of tags: fold keeping the current
maximum, replacing it only when the next item is strictly greater.
Modelled from the spec: tags are compared by their version
(§4.1 "compare(a, b): total order over (major, minor, patch, updateCounter)"). -/
def pyMaxTag (m : VersionTag) : List VersionTag → VersionTag
  | [] => m
  | t :: ts => pyMaxTag (if verLt m.version t.version then t else m) ts

theorem pyMaxTag_mem (m : VersionTag) (ts : List VersionTag) :
    pyMaxTag m ts ∈ m :: ts := by
  induction ts generalizing m with
  | nil => simp [pyMaxTag]
  | cons t ts ih =>
    simp only [pyMaxTag]
    by_cases h : verLt m.version t.version
    · rw [if_pos h]
      rcases (List.mem_cons).1 (ih t) with h1 | h1
      · simp [h1]
      · simp [h1]
    · rw [if_neg h]
      rcases (List.mem_cons).1 (ih m) with h1 | h1
      · simp [h1]
      · simp [h1]

theorem pyMaxTag_ub (m : VersionTag) (ts : List VersionTag) :
    ∀ x ∈ m :: ts, verLe x.version (pyMaxTag m ts).version := by
  induction ts generalizing m with
  | nil =>
    intro x hx
    simp only [List.mem_singleton] at hx
    subst hx
    exact verLe_refl _
  | cons t ts ih =>
    intro x hx
    simp only [pyMaxTag]
    set m' := if verLt m.version t.version then t else m with hm'
    have hmm : verLe m.version m'.version := by
      by_cases h : verLt m.version t.version
      · rw [hm', if_pos h]; exact verLe_of_verLt h
      · rw [hm', if_neg h]; exact verLe_refl _
    have htm : verLe t.version m'.version := by
      by_cases h : verLt m.version t.version
      · rw [hm', if_pos h]; exact verLe_refl _
      · rw [hm', if_neg h]; exact verLe_of_not_verLt h
    rcases (List.mem_cons).1 hx with h1 | h1
    · subst h1
      exact verLe_trans hmm (ih m' m' (by simp))
    · rcases (List.mem_cons).1 h1 with h2 | h2
      · subst h2
        exact verLe_trans htm (ih m' m' (by simp))
      · exact ih m' x (by simp [h2])

/-! ### Registry server (`src/registry/app.py`)

The in-memory store is the pair of the `operators` dict and the
`operator_versions` list.  Git/network behaviour of a remote repository
(clone, `rev_parse`, the spec file found at a commit) is abstracted as a
`Remote` environment; `fetch_remote_spec` mirrors the function of the same
name: `Git.clone` failure and a `rev_parse` mismatch produce the two
`abort(400)` JSON errors, while a missing or unparsable spec file at the
checked-out commit has no handler in the source (`open` / `json.load`
raise), which the embedding records as `FetchResult.crash`. -/

/-- The externally observable behaviour of one remote repository. -/
structure Remote where
  readable : Bool
  resolve : String → String
  specAt : String → Option String

/-- Outcome of `fetch_remote_spec`: the parsed spec blob, an `abort(400)`
with a JSON error message, or an uncaught exception. -/
inductive FetchResult
  | ok (spec : String)
  | badRequest (msg : String)
  | crash
  deriving DecidableEq, Repr

def fetch_remote_spec (remotes : String → Remote) (remote_url : String)
    (version_hash : String) (version_tag : String) : FetchResult :=
  if (remotes remote_url).readable = false then
    .badRequest "Remote repository is not readable"
  else if (remotes remote_url).resolve version_tag ≠ version_hash then
    .badRequest "Remote repository version does not match"
  else
    match (remotes remote_url).specAt version_hash with
    | some s => .ok s
    | none => .crash

/-- An operator record: `{'name': .., 'gitRemoteUrl': .., 'versions': [..]}`. -/
structure Operator where
  name : String
  gitRemoteUrl : String
  versions : List String
  deriving DecidableEq, Repr

/-- An entry of the `operator_versions` list. -/
structure OperatorVersion where
  version : String
  hash : String
  operator_name : String
  spec : String
  deriving DecidableEq, Repr

/-- The registry's mutable store: the `operators` dict (unique keys, hence a
partial map) and the global `operator_versions` list. -/
structure RegistryState where
  operators : String → Option Operator
  operator_versions : List OperatorVersion

/-- HTTP outcome of a registry request, as far as status codes and
mutations are concerned. -/
inductive RResponse
  | created
  | conflict409
  | notFound404
  | badRequest400 (msg : String)
  | serverCrash
  deriving DecidableEq, Repr

/-- `OperatorListAPI.post` — register an operator. -/
def OperatorListAPI.post (st : RegistryState) (name gitRemoteUrl : String) :
    RResponse × RegistryState :=
  if (st.operators name).isSome then (.conflict409, st)
  else
    (.created,
      { st with
        operators := fun n =>
          if n = name then some ⟨name, gitRemoteUrl, []⟩ else st.operators n })

/-- `OperatorAPI.get` — read an operator record (`none` models the 404). -/
def OperatorAPI.get (st : RegistryState) (name : String) : Option Operator :=
  st.operators name

/-- `OperatorVersionListAPI.post` — register a version of an operator after
independently verifying the claimed commit hash against the remote. -/
def OperatorVersionListAPI.post (remotes : String → Remote) (st : RegistryState)
    (operator_name version version_tag version_hash : String) :
    RResponse × RegistryState :=
  match st.operators operator_name with
  | none => (.notFound404, st)
  | some op =>
    if version ∈ op.versions then (.conflict409, st)
    else
      match fetch_remote_spec remotes op.gitRemoteUrl version_hash version_tag with
      | .badRequest m => (.badRequest400 m, st)
      | .crash => (.serverCrash, st)
      | .ok s =>
        (.created,
          { operators := fun n =>
              if n = operator_name then
                some { op with versions := op.versions ++ [version] }
              else st.operators n,
            operator_versions :=
              st.operator_versions ++ [⟨version, version_hash, operator_name, s⟩] })

/-- `OperatorVersionListAPI.get` — list the version records of one operator
(`none` models the 404 for an unknown operator). -/
def OperatorVersionListAPI.get (st : RegistryState) (operator_name : String) :
    Option (List OperatorVersion) :=
  if (st.operators operator_name).isSome then
    some (st.operator_versions.filter (fun r => r.operator_name == operator_name))
  else none

/-- `OperatorVersionAPI.get` — first record matching (operator, version)
(`none` models the 404). -/
def OperatorVersionAPI.get (st : RegistryState) (operator_name version : String) :
    Option OperatorVersion :=
  if (st.operators operator_name).isSome then
    st.operator_versions.find? (fun r =>
      r.operator_name == operator_name && r.version == version)
  else none

/-- Number of records in the global version-record list carrying a given
(operator, version) pair. -/
def recordCount (st : RegistryState) (name v : String) : Nat :=
  st.operator_versions.countP (fun r => r.operator_name == name && r.version == v)

/-- The store invariant: every record names a registered operator, and for
every registered operator and version string, the version occurs at most
once in the operator's list and the record list carries exactly one record
for the pair when (and only when) the version is listed. -/
def RegInv (st : RegistryState) : Prop :=
  (∀ r ∈ st.operator_versions, (st.operators r.operator_name).isSome = true) ∧
  ∀ name op, st.operators name = some op →
    ∀ v, op.versions.count v ≤ 1 ∧
      recordCount st name v = (if v ∈ op.versions then 1 else 0)

theorem recordCount_append (ops ops' : String → Option Operator)
    (rvs : List OperatorVersion) (r : OperatorVersion) (name v : String) :
    recordCount ⟨ops, rvs ++ [r]⟩ name v =
      recordCount ⟨ops', rvs⟩ name v +
        (if r.operator_name = name ∧ r.version = v then 1 else 0) := by
  by_cases hc : r.operator_name = name ∧ r.version = v
  · rw [if_pos hc]
    simp [recordCount, List.countP_append, List.countP_cons, hc.1, hc.2]
  · rw [if_neg hc]
    rcases not_and_or.mp hc with hn | hn <;>
      simp [recordCount, List.countP_append, List.countP_cons, hn]

theorem recordCount_mk_ops (f : String → Option Operator) (st : RegistryState)
    (name v : String) :
    recordCount ⟨f, st.operator_versions⟩ name v = recordCount st name v := rfl

/-! ### CLI client (`src/cli/utils.py`)

The client operates on a working copy: a git repository (tags, commits,
staged files), the on-disk `specification.json`, the remote, and the
registry.  `ClientState` is the externally observable part of that world.

The `component_context` context manager re-serializes the specification
file on every exit of the `with` block whenever the context holds a spec
path (`save_component_context`); `writeSpec` models one such write.  Git
subprocess results that the code branches on (push success, whether the
`'Update specification'` commit found changes, tag messages/hashes,
interactive input) are supplied by a `PubEnv` environment.

Modelled from the spec (the `common/git.py` and `common/registry.py`
collaborators are not among the provided sources): `Git.tag.create` fails
when a tag of that name already exists and the commit operation reports
that failure (spec §4.2 step 4); `VersionTag.parse` fails with `ParseError`
on a malformed tag (spec §4.1), which propagates as an exception. -/

/-- The fields of `specification.json` that the workflows read or write. -/
structure PublishInfo where
  remoteName : String
  remoteUrl : String
  registry : String
  deriving DecidableEq, Repr

/-- In-memory/On-disk contents of `specification.json`. -/
structure SpecData where
  name : String
  componentType : String
  description : String
  version : Version
  hasIop : Bool
  definitionFile : Option String
  publish : Option PublishInfo
  deriving DecidableEq, Repr

/-- Observable state of the client's working copy and its surroundings. -/
structure ClientState where
  tags : List String
  commits : Nat
  staged : List String
  specFile : Option SpecData
  specWrites : Nat
  codePushes : Nat
  pushedTags : List String
  registryCalls : List (String × String × String × String)
  deriving DecidableEq, Repr

/-- `save_component_context`: serialize the given spec dict to the spec
path (counted so that "the file was rewritten" is observable). -/
def writeSpec (st : ClientState) (spec : SpecData) : ClientState :=
  { st with specFile := some spec, specWrites := st.specWrites + 1 }

/-- Result of a CLI workflow: `ok` = `return 0`, `err` = printed message
followed by `return 1`, `raised` = uncaught exception. -/
inductive CResult
  | ok
  | err (msg : String)
  | raised (msg : String)
  deriving DecidableEq, Repr

/-- `SPEC_FILENAME`. -/
def SPEC_FILENAME : String := "specification.json"

/-- Parse every tag name of a list (Python `VersionTag.parse(tag) for tag
in prev_tags_raw`); `none` when any element fails to parse. -/
def parseTags : List String → Option (List VersionTag)
  | [] => some []
  | s :: ss =>
    match VersionTag.parse s, parseTags ss with
    | some t, some ts => some (t :: ts)
    | _, _ => none

/-- Git tag creation: fails (`false`) when the tag name already exists,
otherwise records the tag.  Modelled from the spec (§4.2 step 4, §5): tag
creation is the compare-and-swap primitive and fails on an existing name. -/
def gitTagCreate (name : String) (st : ClientState) : Bool × ClientState :=
  if name ∈ st.tags then (false, st)
  else (true, { st with tags := st.tags ++ [name] })

/-- Tail of `component_commit` (lines 183–188 of `src/cli/utils.py`): persist
the new version into the spec (the `with` block exits here, rewriting the
file), stage the definition file (`KeyError` when the spec has no
`definition` entry), commit, create the tag.  `concurrent` lists tag names
created by another actor between `Git.tag.list` and `Git.tag.create`; they
affect only the tag-creation step. -/
def commitFinish (vtag : VersionTag) (current : Version)
    (concurrent : List String) (st : ClientState) (spec : SpecData) :
    CResult × ClientState :=
  match spec.definitionFile with
  | none => (.raised "KeyError", writeSpec st { spec with version := current })
  | some f =>
    if serializeTag vtag ∈ st.tags ++ concurrent then
      (.err "Tag already exists.",
        { st with
          specFile := some { spec with version := current },
          specWrites := st.specWrites + 1,
          staged := st.staged ++ [f],
          commits := st.commits + 1 })
    else
      (.ok,
        { st with
          specFile := some { spec with version := current },
          specWrites := st.specWrites + 1,
          staged := st.staged ++ [f],
          commits := st.commits + 1,
          tags := st.tags ++ [serializeTag vtag] })

/-- `component_commit` (the candidate tag is
`VersionTag(component_type, spec['name'], current_version)` with
`current_version = version if version is not None else spec['version']`;
the conflict check compares it against the max of all parsed tags). -/
def component_commit (component_type message : String) (version : Option Version)
    (concurrent : List String) (st : ClientState) : CResult × ClientState :=
  match st.specFile with
  | none => (.err "Component not initialized.", st)
  | some spec =>
    if spec.hasIop = false then
      (.err "Component IOP declaration not added.", writeSpec st spec)
    else
      match st.tags with
      | [] =>
        commitFinish ⟨component_type, some spec.name, version.getD spec.version⟩
          (version.getD spec.version) concurrent st spec
      | tg :: tgs =>
        match VersionTag.parse tg, parseTags tgs with
        | some t, some ts =>
          if verLe (version.getD spec.version) (pyMaxTag t ts).version then
            (.err ("Version " ++ serializeVersion (version.getD spec.version) ++
              " not greater than " ++ serializeVersion (pyMaxTag t ts).version),
              writeSpec st spec)
          else
            commitFinish ⟨component_type, some spec.name, version.getD spec.version⟩
              (version.getD spec.version) concurrent st spec
        | _, _ => (.raised "ParseError", writeSpec st spec)

/-- Interactive input consumed by `component_init`. -/
structure InitInputs where
  name : String
  description : String
  version : Option Version
  deriving DecidableEq, Repr

/-- `component_init` (`Git.init` touches no state the embedding tracks). -/
def component_init (component_type : String) (inputs : InitInputs)
    (st : ClientState) : CResult × ClientState :=
  match st.specFile with
  | some spec => (.err "Component already initialized.", writeSpec st spec)
  | none =>
    let spec : SpecData :=
      { name := inputs.name, componentType := component_type,
        description := inputs.description,
        version := inputs.version.getD DEFAULT_VERSION,
        hasIop := false, definitionFile := none, publish := none }
    (.ok, { writeSpec st spec with staged := st.staged ++ [SPEC_FILENAME] })

/-- Environment of one `component_publish` run: results of the git/network
calls the code branches on, and the interactively supplied publish target
(used only when the spec has no `publish` entry yet). -/
structure PubEnv where
  pushOk : Bool
  specCommitted : Bool
  tagPushOk : Bool
  registryOk : Bool
  registryErrMsg : String
  tagMessage : String → String
  tagHash : String → String
  inputPublish : PublishInfo

/-- Result of `component_publish`: `ret1` = printed message and `return 1`;
`retNone` = the function fell off its end returning Python `None` (`regErr`
is the registry error printed on the way, if any); `raised` = uncaught
exception. -/
inductive PResult
  | ret1 (msg : String)
  | retNone (regErr : Option String)
  | raised (msg : String)
  deriving DecidableEq, Repr

/-- Lines 192–196 of `src/cli/utils.py`: the publish candidate — the
maximum of all parsed local tags (`none` when there are no tags or a tag
fails to parse). -/
def publishCandidate (tags : List String) : Option VersionTag :=
  match tags with
  | [] => none
  | tg :: tgs =>
    match VersionTag.parse tg, parseTags tgs with
    | some t, some ts => some (pyMaxTag t ts)
    | _, _ => none

/-- `component_publish`. -/
def component_publish (component_type : String) (env : PubEnv)
    (st : ClientState) : PResult × ClientState :=
  match st.tags with
  | [] => (.ret1 "Component does not have any versions to publish.", st)
  | tg :: tgs =>
    match publishCandidate (tg :: tgs) with
    | none => (.raised "ParseError", st)
    | some tagToPublish =>
      match st.specFile with
      | none => (.ret1 "Component in not initialized.", st)
      | some spec =>
        let pub := spec.publish.getD env.inputPublish
        if env.pushOk = false then
          (.ret1 "Component could not be pushed to remote, possibly due to a conflict.",
            writeSpec st spec)
        else
          let spec1 := { spec with publish := some pub }
          let st1 := writeSpec { st with codePushes := st.codePushes + 1 } spec1
          let step :=
            if env.specCommitted then
              let t := tagToPublish.withIncrementedUpdateNum
              (t, (gitTagCreate (serializeTag t)
                { st1 with commits := st1.commits + 1 }).2)
            else (tagToPublish, st1)
          let tagFinal := step.1
          let st2 := step.2
          if env.tagPushOk = false then
            (.ret1 "Component version could not be pushed to remote, possibly due to a conflict.",
              st2)
          else
            let st3 := { st2 with pushedTags := st2.pushedTags ++ [serializeTag tagFinal] }
            if env.registryOk then
              (.retNone none,
                { st3 with registryCalls := st3.registryCalls ++
                    [(pub.registry, pub.remoteUrl, serializeTag tagFinal,
                      env.tagHash (serializeTag tagFinal))] })
            else
              (.retNone (some ("Component could not be published: " ++
                env.registryErrMsg ++ ".")), st3)

/-! ### Registry lemmas -/

theorem fetch_eq_unreadable {remotes : String → Remote} {url : String}
    (h : (remotes url).readable = false) (vh vt : String) :
    fetch_remote_spec remotes url vh vt = .badRequest "Remote repository is not readable" := by
  unfold fetch_remote_spec
  rw [if_pos h]

theorem fetch_eq_mismatch {remotes : String → Remote} {url vt vh : String}
    (h : (remotes url).readable = true)
    (hm : (remotes url).resolve vt ≠ vh) :
    fetch_remote_spec remotes url vh vt =
      .badRequest "Remote repository version does not match" := by
  unfold fetch_remote_spec
  rw [if_neg (by simp [h]), if_pos hm]

theorem fetch_eq_crash {remotes : String → Remote} {url vt vh : String}
    (h : (remotes url).readable = true)
    (hr : (remotes url).resolve vt = vh)
    (hs : (remotes url).specAt vh = none) :
    fetch_remote_spec remotes url vh vt = .crash := by
  unfold fetch_remote_spec
  rw [if_neg (by simp [h]), if_neg (by simp [hr]), hs]

theorem fetch_eq_ok {remotes : String → Remote} {url vt vh s : String}
    (h : (remotes url).readable = true)
    (hr : (remotes url).resolve vt = vh)
    (hs : (remotes url).specAt vh = some s) :
    fetch_remote_spec remotes url vh vt = .ok s := by
  unfold fetch_remote_spec
  rw [if_neg (by simp [h]), if_neg (by simp [hr]), hs]

theorem registerVersion_post_eq {st : RegistryState} {A : String} {op : Operator}
    (remotes : String → Remote) (version vt vh : String)
    (hop : st.operators A = some op) (hv : version ∉ op.versions) :
    OperatorVersionListAPI.post remotes st A version vt vh =
      match fetch_remote_spec remotes op.gitRemoteUrl vh vt with
      | .badRequest m => (.badRequest400 m, st)
      | .crash => (.serverCrash, st)
      | .ok s =>
        (.created,
          { operators := fun n =>
              if n = A then some { op with versions := op.versions ++ [version] }
              else st.operators n,
            operator_versions :=
              st.operator_versions ++ [⟨version, vh, A, s⟩] }) := by
  unfold OperatorVersionListAPI.post
  split
  · next heq =>
    rw [hop] at heq
    exact absurd heq (by simp)
  · next op' heq =>
    rw [hop] at heq
    injection heq with heq
    subst heq
    rw [if_neg hv]

/-! ### Registry fixtures for witnesses and counterexamples -/

/-- A registered operator with remote `"R"` and no published versions. -/
def opDemo : Operator := ⟨"demo", "R", []⟩

/-- A store holding exactly the operator `"demo"`. -/
def regSt0 : RegistryState :=
  ⟨fun n => if n = "demo" then some opDemo else none, []⟩

/-- Every remote is readable, every ref resolves to `"h"`, and the spec
file is present and valid at every commit. -/
def remotesGood : String → Remote :=
  fun _ => ⟨true, fun _ => "h", fun _ => some "SPEC"⟩

/-- Every remote is readable and every ref resolves to `"h"`, but the spec
file is missing (or not valid structured data) at every commit. -/
def remotesNoSpec : String → Remote :=
  fun _ => ⟨true, fun _ => "h", fun _ => none⟩

theorem regSt0_inv : RegInv regSt0 := by
  constructor
  · intro r hr
    have hr' : r ∈ ([] : List OperatorVersion) := hr
    simp at hr'
  · intro name op hop v
    have hop' : (if name = "demo" then some opDemo else none) = some op := hop
    by_cases he : name = "demo"
    · rw [if_pos he] at hop'
      injection hop' with hop'
      subst hop'
      refine ⟨by simp [opDemo], ?_⟩
      simp [recordCount, regSt0, opDemo]
    · rw [if_neg he] at hop'
      exact absurd hop' (by simp)

/-! ### Claim C1 -/

/-- C1 counterexample: with the operator `"demo"` registered, its version
list empty, the remote readable and the tag independently resolving to the
claimed hash `"h"`, but the spec file missing at that commit, the
registerVersion call does not succeed (it raises out of `json.load` /
`open`, modelled `serverCrash`) and appends nothing — refuting "the call
succeeds if and only if the independently resolved commit hash equals the
claimed hash". -/
theorem registerVersion_hash_iff_cex :
    (remotesNoSpec "R").resolve "mezuri/sources/1.0.0" = "h" ∧
    (OperatorVersionListAPI.post remotesNoSpec regSt0 "demo" "1.0.0"
      "mezuri/sources/1.0.0" "h").1 ≠ .created ∧
    (OperatorVersionListAPI.post remotesNoSpec regSt0 "demo" "1.0.0"
      "mezuri/sources/1.0.0" "h").1 = .serverCrash ∧
    (OperatorVersionListAPI.post remotesNoSpec regSt0 "demo" "1.0.0"
      "mezuri/sources/1.0.0" "h").2.operators "demo" = some opDemo ∧
    (OperatorVersionListAPI.post remotesNoSpec regSt0 "demo" "1.0.0"
      "mezuri/sources/1.0.0" "h").2.operator_versions = [] := by
  refine ⟨rfl, by decide, by decide, by decide, by decide⟩

/-- C1 (amended): for a registerVersion request on an existing operator
whose list does not contain the requested version, the call succeeds (201,
version appended, record created) if and only if the remote clone succeeds,
the independently resolved commit hash equals the claimed hash, AND the
spec file at that commit is present and valid; on a hash mismatch (readable
remote) it returns 400 and the store is unchanged. -/
theorem registerVersion_hash_verification
    (remotes : String → Remote) (st : RegistryState)
    (A version version_tag version_hash : String) (op : Operator)
    (hop : st.operators A = some op) (hv : version ∉ op.versions) :
    ((OperatorVersionListAPI.post remotes st A version version_tag version_hash).1
        = .created ↔
      ((remotes op.gitRemoteUrl).readable = true ∧
        (remotes op.gitRemoteUrl).resolve version_tag = version_hash ∧
        ((remotes op.gitRemoteUrl).specAt version_hash).isSome = true)) ∧
    ((remotes op.gitRemoteUrl).readable = true →
      (remotes op.gitRemoteUrl).resolve version_tag ≠ version_hash →
      OperatorVersionListAPI.post remotes st A version version_tag version_hash =
        (.badRequest400 "Remote repository version does not match", st)) ∧
    (∀ s, (remotes op.gitRemoteUrl).readable = true →
      (remotes op.gitRemoteUrl).resolve version_tag = version_hash →
      (remotes op.gitRemoteUrl).specAt version_hash = some s →
      (OperatorVersionListAPI.post remotes st A version version_tag version_hash).1
          = .created ∧
      (OperatorVersionListAPI.post remotes st A version version_tag
          version_hash).2.operators A =
        some { op with versions := op.versions ++ [version] } ∧
      (∀ m, m ≠ A →
        (OperatorVersionListAPI.post remotes st A version version_tag
            version_hash).2.operators m = st.operators m) ∧
      (OperatorVersionListAPI.post remotes st A version version_tag
          version_hash).2.operator_versions =
        st.operator_versions ++ [⟨version, version_hash, A, s⟩]) := by
  cases hread : (remotes op.gitRemoteUrl).readable with
  | false =>
    have hpe : OperatorVersionListAPI.post remotes st A version version_tag version_hash =
        (.badRequest400 "Remote repository is not readable", st) :=
      (registerVersion_post_eq remotes version version_tag version_hash hop hv).trans
        (by rw [fetch_eq_unreadable hread])
    refine ⟨?_, ?_, ?_⟩
    · rw [hpe]
      simp
    · intro h _
      exact absurd h (by simp)
    · intro s h _ _
      exact absurd h (by simp)
  | true =>
    by_cases hres : (remotes op.gitRemoteUrl).resolve version_tag = version_hash
    · cases hspec : (remotes op.gitRemoteUrl).specAt version_hash with
      | none =>
        have hpe : OperatorVersionListAPI.post remotes st A version version_tag version_hash =
            (.serverCrash, st) :=
          (registerVersion_post_eq remotes version version_tag version_hash hop hv).trans
            (by rw [fetch_eq_crash hread hres hspec])
        refine ⟨?_, ?_, ?_⟩
        · rw [hpe]
          simp
        · intro _ hne
          exact absurd hres hne
        · intro s _ _ hs
          exact absurd hs (by simp)
      | some s =>
        have hpe : OperatorVersionListAPI.post remotes st A version version_tag version_hash =
            (.created,
              { operators := fun n =>
                  if n = A then some { op with versions := op.versions ++ [version] }
                  else st.operators n,
                operator_versions :=
                  st.operator_versions ++ [⟨version, version_hash, A, s⟩] }) :=
          (registerVersion_post_eq remotes version version_tag version_hash hop hv).trans
            (by rw [fetch_eq_ok hread hres hspec])
        refine ⟨?_, ?_, ?_⟩
        · rw [hpe]
          simp [hres]
        · intro _ hne
          exact absurd hres hne
        · intro s' _ _ hs
          injection hs with hs
          subst hs
          rw [hpe]
          refine ⟨rfl, by simp, ?_, rfl⟩
          intro m hm
          simp [hm]
    · have hpe : OperatorVersionListAPI.post remotes st A version version_tag version_hash =
          (.badRequest400 "Remote repository version does not match", st) :=
        (registerVersion_post_eq remotes version version_tag version_hash hop hv).trans
          (by rw [fetch_eq_mismatch hread hres])
      refine ⟨?_, ?_, ?_⟩
      · rw [hpe]
        simp [hres]
      · intro _ _
        exact hpe
      · intro s _ hr _
        exact absurd hr hres

/-- C1 witness: a fully successful registration at concrete inputs. -/
theorem registerVersion_hash_verification_w :
    (OperatorVersionListAPI.post remotesGood regSt0 "demo" "1.0.0"
      "mezuri/sources/1.0.0" "h").1 = .created := by
  exact ((registerVersion_hash_verification remotesGood regSt0 "demo" "1.0.0"
    "mezuri/sources/1.0.0" "h" opDemo (by decide) (by decide)).1).mpr
    (by decide)

/-! ### Claim C4 -/

/-- A second operator fixture, used for the missing-spec scenarios. -/
def opFour : Operator := ⟨"op4", "R4", []⟩

/-- A store holding exactly the operator `"op4"`. -/
def regSt4 : RegistryState :=
  ⟨fun n => if n = "op4" then some opFour else none, []⟩

/-- C4 counterexample: clone succeeds and the resolved hash matches, but the
spec file is missing at the checked-out commit.  `fetch_remote_spec` has no
handler around `open`/`json.load`, so the call ends in an uncaught
exception (`serverCrash`) — not the claimed structured 4xx
`SpecNotFoundError` response — refuting the claim as stated.  The store is
unchanged. -/
theorem registerVersion_missing_spec_cex :
    (OperatorVersionListAPI.post remotesNoSpec regSt4 "op4" "2.0.0"
      "mezuri/sources/2.0.0" "h").1 = .serverCrash ∧
    (OperatorVersionListAPI.post remotesNoSpec regSt4 "op4" "2.0.0"
      "mezuri/sources/2.0.0" "h").1 ≠
        .badRequest400 "Remote repository version does not match" ∧
    (OperatorVersionListAPI.post remotesNoSpec regSt4 "op4" "2.0.0"
      "mezuri/sources/2.0.0" "h").2.operators "op4" = some opFour ∧
    (OperatorVersionListAPI.post remotesNoSpec regSt4 "op4" "2.0.0"
      "mezuri/sources/2.0.0" "h").2.operator_versions = [] := by
  refine ⟨by decide, by decide, by decide, by decide⟩

/-- C4 (amended): after a successful clone and hash check, when the spec
file at the claimed commit is missing or not valid structured data, the
registerVersion call aborts with an uncaught exception propagating out of
`fetch_remote_spec` (an unhandled server error, not a structured 4xx
`SpecNotFoundError`), and the store is left unmutated. -/
theorem registerVersion_missing_spec
    (remotes : String → Remote) (st : RegistryState)
    (A version version_tag version_hash : String) (op : Operator)
    (hop : st.operators A = some op) (hv : version ∉ op.versions)
    (hread : (remotes op.gitRemoteUrl).readable = true)
    (hres : (remotes op.gitRemoteUrl).resolve version_tag = version_hash)
    (hspec : (remotes op.gitRemoteUrl).specAt version_hash = none) :
    OperatorVersionListAPI.post remotes st A version version_tag version_hash =
      (.serverCrash, st) :=
  (registerVersion_post_eq remotes version version_tag version_hash hop hv).trans
    (by rw [fetch_eq_crash hread hres hspec])

/-- C4 witness: the amended theorem at concrete inputs. -/
theorem registerVersion_missing_spec_w :
    OperatorVersionListAPI.post remotesNoSpec regSt4 "op4" "9.0.0"
      "mezuri/sources/9.0.0" "h" = (.serverCrash, regSt4) := by
  exact registerVersion_missing_spec remotesNoSpec regSt4 "op4" "9.0.0"
    "mezuri/sources/9.0.0" "h" opFour (by decide) (by decide) (by decide)
    (by decide) (by decide)

/-! ### Claim C6 -/

/-- C6: `registerOperator` with an existing name returns 409 and leaves the
whole store — in particular the original record's `gitRemoteUrl` and
version list — unchanged; with a fresh name it creates an operator with an
empty version list and returns 201, touching no other operator and no
version record. -/
theorem registerOperator_conflict (st : RegistryState) (name url : String) :
    ((st.operators name).isSome = true →
      OperatorListAPI.post st name url = (.conflict409, st)) ∧
    (st.operators name = none →
      (OperatorListAPI.post st name url).1 = .created ∧
      (OperatorListAPI.post st name url).2.operators name = some ⟨name, url, []⟩ ∧
      (∀ m, m ≠ name →
        (OperatorListAPI.post st name url).2.operators m = st.operators m) ∧
      (OperatorListAPI.post st name url).2.operator_versions =
        st.operator_versions) := by
  constructor
  · intro hs
    unfold OperatorListAPI.post
    rw [if_pos hs]
  · intro hn
    have hs : ¬ (st.operators name).isSome = true := by
      rw [hn]
      simp
    have hpe : OperatorListAPI.post st name url =
        (.created,
          { st with
            operators := fun n =>
              if n = name then some ⟨name, url, []⟩ else st.operators n }) := by
      unfold OperatorListAPI.post
      rw [if_neg hs]
    rw [hpe]
    refine ⟨rfl, by simp, ?_, rfl⟩
    intro m hm
    simp [hm]

/-- C6 witness: both branches at concrete inputs — re-registering `"demo"`
conflicts and leaves the store untouched; registering a fresh name creates
an empty version list. -/
theorem registerOperator_conflict_w :
    OperatorListAPI.post regSt0 "demo" "R2" = (.conflict409, regSt0) ∧
    (OperatorListAPI.post regSt0 "fresh" "U").1 = .created ∧
    (OperatorListAPI.post regSt0 "fresh" "U").2.operators "fresh" =
      some ⟨"fresh", "U", []⟩ ∧
    (OperatorListAPI.post regSt0 "fresh" "U").2.operators "demo" =
      regSt0.operators "demo" := by
  refine ⟨(registerOperator_conflict regSt0 "demo" "R2").1 (by decide), ?_, ?_, ?_⟩
  · exact ((registerOperator_conflict regSt0 "fresh" "U").2 (by decide)).1
  · exact ((registerOperator_conflict regSt0 "fresh" "U").2 (by decide)).2.1
  · exact ((registerOperator_conflict regSt0 "fresh" "U").2 (by decide)).2.2.1
      "demo" (by decide)

/-! ### Claim C10 -/

theorem regInv_registerOperator {st : RegistryState} (h : RegInv st)
    (name url : String) : RegInv (OperatorListAPI.post st name url).2 := by
  unfold OperatorListAPI.post
  by_cases hs : (st.operators name).isSome = true
  · rw [if_pos hs]
    exact h
  · rw [if_neg hs]
    obtain ⟨h1, h2⟩ := h
    constructor
    · intro r hr
      have hmem : r ∈ st.operator_versions := hr
      show (if r.operator_name = name then some ⟨name, url, []⟩
        else st.operators r.operator_name).isSome = true
      by_cases he : r.operator_name = name
      · rw [if_pos he]
        rfl
      · rw [if_neg he]
        exact h1 r hmem
    · intro nm op hop v
      have hop' : (if nm = name then some ⟨name, url, []⟩ else st.operators nm)
          = some op := hop
      by_cases he : nm = name
      · rw [if_pos he] at hop'
        injection hop' with hop'
        subst hop'
        refine ⟨by simp, ?_⟩
        have hz : recordCount st nm v = 0 := by
          rw [show recordCount st nm v = st.operator_versions.countP
            (fun r => r.operator_name == nm && r.version == v) from rfl]
          rw [List.countP_eq_zero]
          intro r hr
          have hsome := h1 r hr
          by_cases hrn : r.operator_name = nm
          · rw [hrn, he] at hsome
            exact absurd hsome hs
          · simp [hrn]
        have hgoal : recordCount
            ⟨fun n => if n = name then some ⟨name, url, []⟩ else st.operators n,
              st.operator_versions⟩ nm v = recordCount st nm v :=
          recordCount_mk_ops _ st nm v
        rw [hgoal, hz]
        simp
      · rw [if_neg he] at hop'
        obtain ⟨hc, hrc⟩ := h2 nm op hop' v
        refine ⟨hc, ?_⟩
        have hgoal : recordCount
            ⟨fun n => if n = name then some ⟨name, url, []⟩ else st.operators n,
              st.operator_versions⟩ nm v = recordCount st nm v :=
          recordCount_mk_ops _ st nm v
        rw [hgoal, hrc]

theorem regInv_registerVersion {st : RegistryState} (h : RegInv st)
    (remotes : String → Remote) (A version vt vh : String) :
    RegInv (OperatorVersionListAPI.post remotes st A version vt vh).2 := by
  rcases hA : st.operators A with _ | op
  · have hpe : OperatorVersionListAPI.post remotes st A version vt vh =
        (.notFound404, st) := by
      unfold OperatorVersionListAPI.post
      split
      · rfl
      · next op' heq =>
        rw [hA] at heq
        exact absurd heq (by simp)
    rw [hpe]
    exact h
  · by_cases hv : version ∈ op.versions
    · have hpe : OperatorVersionListAPI.post remotes st A version vt vh =
          (.conflict409, st) := by
        unfold OperatorVersionListAPI.post
        split
        · next heq =>
          rw [hA] at heq
          exact absurd heq (by simp)
        · next op' heq =>
          rw [hA] at heq
          injection heq with heq
          subst heq
          rw [if_pos hv]
      rw [hpe]
      exact h
    · have hpe := registerVersion_post_eq remotes version vt vh hA hv
      cases hf : fetch_remote_spec remotes op.gitRemoteUrl vh vt with
      | badRequest m =>
        have hres : OperatorVersionListAPI.post remotes st A version vt vh =
            (.badRequest400 m, st) := hpe.trans (by rw [hf])
        rw [hres]
        exact h
      | crash =>
        have hres : OperatorVersionListAPI.post remotes st A version vt vh =
            (.serverCrash, st) := hpe.trans (by rw [hf])
        rw [hres]
        exact h
      | ok s =>
        have hres : OperatorVersionListAPI.post remotes st A version vt vh =
            (.created,
              { operators := fun n =>
                  if n = A then some { op with versions := op.versions ++ [version] }
                  else st.operators n,
                operator_versions :=
                  st.operator_versions ++ [⟨version, vh, A, s⟩] }) :=
          hpe.trans (by rw [hf])
        rw [hres]
        obtain ⟨h1, h2⟩ := h
        constructor
        · intro r hr
          have hr' : r ∈ st.operator_versions ++ [⟨version, vh, A, s⟩] := hr
          rw [List.mem_append] at hr'
          show (if r.operator_name = A
              then some { op with versions := op.versions ++ [version] }
              else st.operators r.operator_name).isSome = true
          by_cases he : r.operator_name = A
          · rw [if_pos he]
            rfl
          · rw [if_neg he]
            rcases hr' with hr' | hr'
            · exact h1 r hr'
            · rw [List.mem_singleton] at hr'
              subst hr'
              exact absurd rfl he
        · intro nm op' hop' v
          have hop'' : (if nm = A
              then some { op with versions := op.versions ++ [version] }
              else st.operators nm) = some op' := hop'
          by_cases he : nm = A
          · rw [if_pos he] at hop''
            injection hop'' with hop''
            subst hop''
            obtain ⟨hc, hrc⟩ := h2 A op hA v
            constructor
            · show (op.versions ++ [version]).count v ≤ 1
              rw [List.count_append]
              by_cases hvv : v = version
              · subst hvv
                rw [List.count_eq_zero.mpr hv]
                simp
              · have h0 : List.count v [version] = 0 := by
                  rw [List.count_eq_zero]
                  simp [hvv]
                rw [h0]
                omega
            · rw [he]
              rw [recordCount_append
                    (fun n => if n = A
                      then some { op with versions := op.versions ++ [version] }
                      else st.operators n)
                    st.operators st.operator_versions ⟨version, vh, A, s⟩ A v,
                  recordCount_mk_ops st.operators st A v, hrc]
              by_cases hvv : v = version
              · subst hvv
                rw [if_neg hv, if_pos ⟨rfl, rfl⟩, if_pos (by simp)]
              · rw [if_neg (show ¬((⟨version, vh, A, s⟩ : OperatorVersion).operator_name = A ∧
                    (⟨version, vh, A, s⟩ : OperatorVersion).version = v) from
                    fun hcc => hvv hcc.2.symm)]
                by_cases hm : v ∈ op.versions
                · rw [if_pos hm, if_pos (List.mem_append_left _ hm)]
                · rw [if_neg hm, if_neg (by simp [hm, hvv])]
          · rw [if_neg he] at hop''
            obtain ⟨hc, hrc⟩ := h2 nm op' hop'' v
            refine ⟨hc, ?_⟩
            rw [recordCount_append
                  (fun n => if n = A
                    then some { op with versions := op.versions ++ [version] }
                    else st.operators n)
                  st.operators st.operator_versions ⟨version, vh, A, s⟩ nm v,
                recordCount_mk_ops st.operators st nm v, hrc,
                if_neg (show ¬((⟨version, vh, A, s⟩ : OperatorVersion).operator_name = nm ∧
                  (⟨version, vh, A, s⟩ : OperatorVersion).version = v) from
                  fun hcc => he hcc.1.symm)]
            omega

/-- C10: the registry store invariant — every version string occurs at most
once in its operator's list, and it occurs there if and only if exactly one
record of the global version-record list carries that (operator, version)
pair — holds of any invariant state and is preserved by both mutating
operations (`registerOperator` and `registerVersion`; the GET endpoints
are read-only functions of the state and return no state at all). -/
theorem registry_store_invariant_preserved :
    (∀ st name url, RegInv st → RegInv (OperatorListAPI.post st name url).2) ∧
    (∀ remotes st A version vt vh, RegInv st →
      RegInv (OperatorVersionListAPI.post remotes st A version vt vh).2) ∧
    (∀ st, RegInv st → ∀ name op, st.operators name = some op →
      ∀ v, op.versions.count v ≤ 1 ∧
        (v ∈ op.versions ↔ recordCount st name v = 1)) := by
  refine ⟨fun st name url h => regInv_registerOperator h name url,
    fun remotes st A version vt vh h =>
      regInv_registerVersion h remotes A version vt vh, ?_⟩
  intro st h name op hop v
  obtain ⟨hc, hrc⟩ := h.2 name op hop v
  refine ⟨hc, ?_, ?_⟩
  · intro hm
    rw [hrc, if_pos hm]
  · intro h1
    by_cases hm : v ∈ op.versions
    · exact hm
    · rw [hrc, if_neg hm] at h1
      exact absurd h1 (by simp)

/-- C10 witness: the invariant holds of the concrete one-operator store and
is carried through a concrete operator registration and a concrete verified
version registration. -/
theorem registry_store_invariant_preserved_w :
    RegInv (OperatorListAPI.post regSt0 "other" "U").2 ∧
    RegInv (OperatorVersionListAPI.post remotesGood regSt0 "demo" "1.0.0"
      "mezuri/sources/1.0.0" "h").2 :=
  ⟨registry_store_invariant_preserved.1 regSt0 "other" "U" regSt0_inv,
    registry_store_invariant_preserved.2.1 remotesGood regSt0 "demo" "1.0.0"
      "mezuri/sources/1.0.0" "h" regSt0_inv⟩

/-! ### Commit path equations -/

theorem commitFinish_raised {spec : SpecData} (hdef : spec.definitionFile = none)
    (vtag : VersionTag) (current : Version) (conc : List String) (st : ClientState) :
    commitFinish vtag current conc st spec =
      (.raised "KeyError", writeSpec st { spec with version := current }) := by
  simp only [commitFinish, hdef]

theorem commitFinish_race {spec : SpecData} {f : String}
    (hdef : spec.definitionFile = some f)
    (vtag : VersionTag) (current : Version) (conc : List String) (st : ClientState)
    (hmem : serializeTag vtag ∈ st.tags ++ conc) :
    commitFinish vtag current conc st spec =
      (.err "Tag already exists.",
        { st with
          specFile := some { spec with version := current },
          specWrites := st.specWrites + 1,
          staged := st.staged ++ [f],
          commits := st.commits + 1 }) := by
  simp only [commitFinish, hdef]
  rw [if_pos hmem]

theorem commitFinish_ok {spec : SpecData} {f : String}
    (hdef : spec.definitionFile = some f)
    (vtag : VersionTag) (current : Version) (conc : List String) (st : ClientState)
    (hnew : serializeTag vtag ∉ st.tags ++ conc) :
    commitFinish vtag current conc st spec =
      (.ok,
        { st with
          specFile := some { spec with version := current },
          specWrites := st.specWrites + 1,
          staged := st.staged ++ [f],
          commits := st.commits + 1,
          tags := st.tags ++ [serializeTag vtag] }) := by
  simp only [commitFinish, hdef]
  rw [if_neg hnew]

theorem commit_eq_conflict {st : ClientState} {spec : SpecData}
    (hspec : st.specFile = some spec) (hiop : spec.hasIop = true)
    {tg : String} {tgs : List String} {t : VersionTag} {ts : List VersionTag}
    (htags : st.tags = tg :: tgs)
    (hp : VersionTag.parse tg = some t) (hps : parseTags tgs = some ts)
    (ct m : String) (ver : Option Version) (conc : List String)
    (hle : verLe (ver.getD spec.version) (pyMaxTag t ts).version) :
    component_commit ct m ver conc st =
      (.err ("Version " ++ serializeVersion (ver.getD spec.version) ++
        " not greater than " ++ serializeVersion (pyMaxTag t ts).version),
        writeSpec st spec) := by
  simp only [component_commit, hspec, hiop, htags, hp, hps]
  rw [if_neg (by simp), if_pos hle]

theorem commit_eq_pass_cons {st : ClientState} {spec : SpecData}
    (hspec : st.specFile = some spec) (hiop : spec.hasIop = true)
    {tg : String} {tgs : List String} {t : VersionTag} {ts : List VersionTag}
    (htags : st.tags = tg :: tgs)
    (hp : VersionTag.parse tg = some t) (hps : parseTags tgs = some ts)
    (ct m : String) (ver : Option Version) (conc : List String)
    (hgt : ¬ verLe (ver.getD spec.version) (pyMaxTag t ts).version) :
    component_commit ct m ver conc st =
      commitFinish ⟨ct, some spec.name, ver.getD spec.version⟩
        (ver.getD spec.version) conc st spec := by
  simp only [component_commit, hspec, hiop, htags, hp, hps]
  rw [if_neg (by simp), if_neg hgt]

theorem commit_eq_pass_nil {st : ClientState} {spec : SpecData}
    (hspec : st.specFile = some spec) (hiop : spec.hasIop = true)
    (htags : st.tags = []) (ct m : String) (ver : Option Version)
    (conc : List String) :
    component_commit ct m ver conc st =
      commitFinish ⟨ct, some spec.name, ver.getD spec.version⟩
        (ver.getD spec.version) conc st spec := by
  simp only [component_commit, hspec, hiop, htags]
  rw [if_neg (by simp)]

/-! ### Client fixtures -/

/-- A concrete publish target. -/
def pubA : PublishInfo := ⟨"origin", "R", "http://registry"⟩

/-- A concrete initialized spec with a declaration and a definition file. -/
def specA : SpecData :=
  { name := "demo", componentType := "sources", description := "d",
    version := ⟨0, 1, 0, 0⟩, hasIop := true,
    definitionFile := some "source.py", publish := some pubA }

/-- An initialized working copy with no tags yet. -/
def clSt0 : ClientState :=
  { tags := [], commits := 0, staged := [], specFile := some specA,
    specWrites := 0, codePushes := 0, pushedTags := [], registryCalls := [] }

/-- An initialized working copy holding one committed version tag. -/
def clSt1 : ClientState := { clSt0 with tags := ["mezuri/sources/1.0.0"] }

/-- A publish environment in which every external call succeeds. -/
def envA : PubEnv :=
  { pushOk := true, specCommitted := false, tagPushOk := true,
    registryOk := true, registryErrMsg := "",
    tagMessage := fun _ => "m", tagHash := fun _ => "h", inputPublish := pubA }

/-- A publish environment in which code and tag push succeed but the
registry call raises `RegistryError("boom")`. -/
def envFail : PubEnv :=
  { envA with registryOk := false, registryErrMsg := "boom" }

/-! ### Claim C8 -/

/-- C8 counterexample: the tag string format (`TAG_NAME_FORMAT` in
`src/cli/utils.py`, spec §6) is `mezuri/{componentType}/{version}` — it
does not encode the component name — so parsing the serialization of a tag
constructed with a component name does not return a tag equal to it. -/
theorem tag_roundtrip_cex :
    VersionTag.parse (serializeTag ⟨"sources", some "demo", ⟨1, 0, 0, 0⟩⟩) ≠
      some ⟨"sources", some "demo", ⟨1, 0, 0, 0⟩⟩ ∧
    serializeTag ⟨"sources", some "demo", ⟨1, 0, 0, 0⟩⟩ = "mezuri/sources/1.0.0" := by
  constructor <;> decide

/-- C8 (amended): serialization is deterministic (a pure function of the
tag) and parsing its output recovers the componentType and the full
Version exactly; only the component name — which the string format does
not encode — is lost (`none` in the parsed tag).  `max` over any non-empty
collection of parsed tags returns an element of the collection whose
version is greater than or equal to every member's version. -/
theorem tag_roundtrip_amended (t : VersionTag) (h : '/' ∉ t.componentType.data) :
    VersionTag.parse (serializeTag t) = some ⟨t.componentType, none, t.version⟩ ∧
    (∀ m ts, pyMaxTag m ts ∈ m :: ts ∧
      ∀ x ∈ m :: ts, verLe x.version (pyMaxTag m ts).version) :=
  ⟨VersionTag.parse_serializeTag t h,
    fun m ts => ⟨pyMaxTag_mem m ts, pyMaxTag_ub m ts⟩⟩

/-- C8 witness: the amended round-trip at a concrete tag, update counter
included. -/
theorem tag_roundtrip_amended_w :
    VersionTag.parse (serializeTag ⟨"sources", some "demo", ⟨1, 2, 3, 4⟩⟩) =
      some ⟨"sources", none, ⟨1, 2, 3, 4⟩⟩ :=
  (tag_roundtrip_amended ⟨"sources", some "demo", ⟨1, 2, 3, 4⟩⟩ (by decide)).1

/-! ### Claim C2 -/

/-- C2: version-monotonicity of `component_commit`.  (i) When the candidate
version is less than or equal to the maximum of all parsed existing tags,
the commit fails with the version-conflict message and mutates nothing: no
commit, no tag, no staging, and the spec file is rewritten with its
unchanged contents (`writeSpec st spec`).  (ii) When there are no tags, or
the candidate is strictly greater than the maximum, the version check
passes and (absent a tag race) the commit succeeds, updating the spec
version, staging the definition file, committing and creating the tag.
(iii) Hence for v1 < v2 from a fresh repository: committing v1 succeeds,
then committing v2 succeeds, and then committing v1 again fails with the
conflict message naming v1 and v2. -/
theorem commit_version_monotonicity :
    (∀ st spec tg tgs t ts ct m ver conc,
      st.specFile = some spec → spec.hasIop = true →
      st.tags = tg :: tgs → VersionTag.parse tg = some t →
      parseTags tgs = some ts →
      verLe (ver.getD spec.version) (pyMaxTag t ts).version →
      component_commit ct m ver conc st =
        (.err ("Version " ++ serializeVersion (ver.getD spec.version) ++
          " not greater than " ++ serializeVersion (pyMaxTag t ts).version),
          writeSpec st spec)) ∧
    (∀ st spec f ct m ver conc,
      st.specFile = some spec → spec.hasIop = true →
      spec.definitionFile = some f →
      (st.tags = [] ∨ ∃ tg tgs t ts, st.tags = tg :: tgs ∧
        VersionTag.parse tg = some t ∧ parseTags tgs = some ts ∧
        ¬ verLe (ver.getD spec.version) (pyMaxTag t ts).version) →
      serializeTag ⟨ct, some spec.name, ver.getD spec.version⟩ ∉ st.tags ++ conc →
      component_commit ct m ver conc st =
        (.ok,
          { st with
            specFile := some { spec with version := ver.getD spec.version },
            specWrites := st.specWrites + 1,
            staged := st.staged ++ [f],
            commits := st.commits + 1,
            tags := st.tags ++
              [serializeTag ⟨ct, some spec.name, ver.getD spec.version⟩] })) ∧
    (∀ st spec f ct m v1 v2,
      st.specFile = some spec → spec.hasIop = true →
      spec.definitionFile = some f → st.tags = [] →
      '/' ∉ ct.data → verLt v1 v2 →
      (component_commit ct m (some v1) [] st).1 = .ok ∧
      (component_commit ct m (some v2) []
        (component_commit ct m (some v1) [] st).2).1 = .ok ∧
      (component_commit ct m (some v1) []
        (component_commit ct m (some v2) []
          (component_commit ct m (some v1) [] st).2).2).1 =
        .err ("Version " ++ serializeVersion v1 ++ " not greater than " ++
          serializeVersion v2)) := by
  have hpass : ∀ (st : ClientState) (spec : SpecData) (f : String)
      (ct m : String) (ver : Option Version) (conc : List String),
      st.specFile = some spec → spec.hasIop = true →
      spec.definitionFile = some f →
      (st.tags = [] ∨ ∃ tg tgs t ts, st.tags = tg :: tgs ∧
        VersionTag.parse tg = some t ∧ parseTags tgs = some ts ∧
        ¬ verLe (ver.getD spec.version) (pyMaxTag t ts).version) →
      serializeTag ⟨ct, some spec.name, ver.getD spec.version⟩ ∉ st.tags ++ conc →
      component_commit ct m ver conc st =
        (.ok,
          { st with
            specFile := some { spec with version := ver.getD spec.version },
            specWrites := st.specWrites + 1,
            staged := st.staged ++ [f],
            commits := st.commits + 1,
            tags := st.tags ++
              [serializeTag ⟨ct, some spec.name, ver.getD spec.version⟩] }) := by
    intro st spec f ct m ver conc hspec hiop hdef hcase hnew
    rcases hcase with htags | ⟨tg, tgs, t, ts, htags, hp, hps, hgt⟩
    · rw [commit_eq_pass_nil hspec hiop htags ct m ver conc]
      exact commitFinish_ok hdef _ _ conc st hnew
    · rw [commit_eq_pass_cons hspec hiop htags hp hps ct m ver conc hgt]
      exact commitFinish_ok hdef _ _ conc st hnew
  refine ⟨?_, hpass, ?_⟩
  · intro st spec tg tgs t ts ct m ver conc hspec hiop htags hp hps hle
    exact commit_eq_conflict hspec hiop htags hp hps ct m ver conc hle
  · intro st spec f ct m v1 v2 hspec hiop hdef htags hslash hlt
    have hnew1 : serializeTag ⟨ct, some spec.name, (some v1).getD spec.version⟩ ∉
        st.tags ++ [] := by
      rw [htags]
      simp
    have h1 := hpass st spec f ct m (some v1) [] hspec hiop hdef (Or.inl htags) hnew1
    refine ⟨by rw [h1], ?_, ?_⟩
    all_goals
      rw [h1]
    -- state after the first commit
    all_goals
      set st1 : ClientState :=
        { st with
          specFile := some { spec with version := (some v1).getD spec.version },
          specWrites := st.specWrites + 1,
          staged := st.staged ++ [f],
          commits := st.commits + 1,
          tags := st.tags ++
            [serializeTag ⟨ct, some spec.name, (some v1).getD spec.version⟩] }
        with hst1
    all_goals
      have hspec1 : st1.specFile = some { spec with version := v1 } := rfl
      have hiop1 : SpecData.hasIop { spec with version := v1 } = true := hiop
      have hdef1 : SpecData.definitionFile { spec with version := v1 } = some f := hdef
      have htags1 : st1.tags = serializeTag ⟨ct, some spec.name, v1⟩ :: [] := by
        rw [hst1]
        show st.tags ++ [serializeTag ⟨ct, some spec.name, v1⟩] = _
        rw [htags]
        rfl
      have hp1 : VersionTag.parse (serializeTag ⟨ct, some spec.name, v1⟩) =
          some ⟨ct, none, v1⟩ := VersionTag.parse_serializeTag _ hslash
      have hne12 : serializeTag ⟨ct, some spec.name, v2⟩ ≠
          serializeTag ⟨ct, some spec.name, v1⟩ := by
        intro he
        have := serializeTag_version_inj hslash hslash he
        exact verLt_ne hlt (by simpa using this.symm)
      have hnew2 : serializeTag ⟨ct, some spec.name, (some v2).getD
          (SpecData.version { spec with version := v1 })⟩ ∉ st1.tags ++ [] := by
        rw [htags1]
        simp
        exact hne12
      have hgt2 : ¬ verLe ((some v2).getD
          (SpecData.version { spec with version := v1 }))
          (pyMaxTag ⟨ct, none, v1⟩ []).version := by
        show ¬ verLe v2 v1
        exact not_verLe_of_verLt hlt
      have h2 := hpass st1 { spec with version := v1 } f ct m (some v2) []
        hspec1 hiop1 hdef1
        (Or.inr ⟨_, [], ⟨ct, none, v1⟩, [], htags1, hp1, rfl, hgt2⟩) hnew2
    · rw [h2]
    · rw [h2]
      set st2 : ClientState :=
        { st1 with
          specFile := some { SpecData.mk spec.name spec.componentType
            spec.description v1 spec.hasIop spec.definitionFile spec.publish with
            version := (some v2).getD
              (SpecData.version { spec with version := v1 }) },
          specWrites := st1.specWrites + 1,
          staged := st1.staged ++ [f],
          commits := st1.commits + 1,
          tags := st1.tags ++ [serializeTag ⟨ct, some spec.name, (some v2).getD
            (SpecData.version { spec with version := v1 })⟩] }
        with hst2
      have hspec2 : st2.specFile = some { spec with version := v2 } := rfl
      have htags2 : st2.tags = serializeTag ⟨ct, some spec.name, v1⟩ ::
          [serializeTag ⟨ct, some spec.name, v2⟩] := by
        rw [hst2]
        show st1.tags ++ [serializeTag ⟨ct, some spec.name, v2⟩] = _
        rw [htags1]
        rfl
      have hp2 : VersionTag.parse (serializeTag ⟨ct, some spec.name, v2⟩) =
          some ⟨ct, none, v2⟩ := VersionTag.parse_serializeTag _ hslash
      have hps2 : parseTags [serializeTag ⟨ct, some spec.name, v2⟩] =
          some [⟨ct, none, v2⟩] := by
        simp only [parseTags, hp2]
      have hmax2 : pyMaxTag ⟨ct, none, v1⟩ [⟨ct, none, v2⟩] = ⟨ct, none, v2⟩ := by
        show pyMaxTag (if verLt v1 v2 then ⟨ct, none, v2⟩ else ⟨ct, none, v1⟩) [] = _
        rw [if_pos hlt]
        rfl
      have hle3 : verLe ((some v1).getD
          (SpecData.version { spec with version := v2 }))
          (pyMaxTag ⟨ct, none, v1⟩ [⟨ct, none, v2⟩]).version := by
        rw [hmax2]
        exact verLe_of_verLt hlt
      have h3 := commit_eq_conflict hspec2 hiop htags2 hp1 hps2 ct m
        (some v1) [] hle3
      rw [h3, hmax2]
      rfl

/-- C2 witness: the two-commit scenario at concrete inputs — committing
1.0.0 then 1.1.0 succeeds, then committing 1.0.0 again fails with the
version-conflict message. -/
theorem commit_version_monotonicity_w :
    (component_commit "sources" "m" (some ⟨1, 0, 0, 0⟩) [] clSt0).1 = .ok ∧
    (component_commit "sources" "m" (some ⟨1, 1, 0, 0⟩) []
      (component_commit "sources" "m" (some ⟨1, 0, 0, 0⟩) [] clSt0).2).1 = .ok ∧
    (component_commit "sources" "m" (some ⟨1, 0, 0, 0⟩) []
      (component_commit "sources" "m" (some ⟨1, 1, 0, 0⟩) []
        (component_commit "sources" "m" (some ⟨1, 0, 0, 0⟩) [] clSt0).2).2).1 =
      .err ("Version " ++ serializeVersion ⟨1, 0, 0, 0⟩ ++ " not greater than " ++
        serializeVersion ⟨1, 1, 0, 0⟩) :=
  commit_version_monotonicity.2.2 clSt0 specA "source.py" "sources" "m"
    ⟨1, 0, 0, 0⟩ ⟨1, 1, 0, 0⟩ (by decide) (by decide) (by decide) (by decide)
    (by decide) (by decide)

/-! ### Claim C3 -/

/-- C3: when the version check passes but the tag name was created by a
concurrent actor between `Git.tag.list` and `Git.tag.create`, the git
commit persists (`commits + 1`, definition file staged, spec version
persisted to disk) while the operation reports failure to the caller, and
no tag of this client's is created — the partial state is left visible.
(Modelled from the spec: `Git.tag.create` failing on an existing name and
the failure being reported is spec §4.2 step 4; `common/git.py` is not
among the provided sources.) -/
theorem commit_tag_race_reported
    (st : ClientState) (spec : SpecData) (f ct m : String)
    (ver : Option Version) (conc : List String)
    (hspec : st.specFile = some spec) (hiop : spec.hasIop = true)
    (hdef : spec.definitionFile = some f)
    (hpass : st.tags = [] ∨ ∃ tg tgs t ts, st.tags = tg :: tgs ∧
      VersionTag.parse tg = some t ∧ parseTags tgs = some ts ∧
      ¬ verLe (ver.getD spec.version) (pyMaxTag t ts).version)
    (hmem : serializeTag ⟨ct, some spec.name, ver.getD spec.version⟩ ∈
      st.tags ++ conc) :
    component_commit ct m ver conc st =
      (.err "Tag already exists.",
        { st with
          specFile := some { spec with version := ver.getD spec.version },
          specWrites := st.specWrites + 1,
          staged := st.staged ++ [f],
          commits := st.commits + 1 }) := by
  rcases hpass with htags | ⟨tg, tgs, t, ts, htags, hp, hps, hgt⟩
  · rw [commit_eq_pass_nil hspec hiop htags ct m ver conc]
    exact commitFinish_race hdef _ _ conc st hmem
  · rw [commit_eq_pass_cons hspec hiop htags hp hps ct m ver conc hgt]
    exact commitFinish_race hdef _ _ conc st hmem

/-- C3 witness: a concurrent actor created `mezuri/sources/1.0.0` between
the tag listing and the tag creation; the commit persists and no tag is
added by this client, while the operation reports failure. -/
theorem commit_tag_race_reported_w :
    (component_commit "sources" "m" (some ⟨1, 0, 0, 0⟩)
      ["mezuri/sources/1.0.0"] clSt0).1 = .err "Tag already exists." ∧
    (component_commit "sources" "m" (some ⟨1, 0, 0, 0⟩)
      ["mezuri/sources/1.0.0"] clSt0).2.commits = clSt0.commits + 1 ∧
    (component_commit "sources" "m" (some ⟨1, 0, 0, 0⟩)
      ["mezuri/sources/1.0.0"] clSt0).2.tags = clSt0.tags := by
  have h := commit_tag_race_reported clSt0 specA "source.py" "sources" "m"
    (some ⟨1, 0, 0, 0⟩) ["mezuri/sources/1.0.0"] (by decide) (by decide)
    (by decide) (Or.inl (by decide)) (by decide)
  refine ⟨by rw [h], by rw [h], by rw [h]⟩

/-! ### Claim C7 -/

/-- C7: publish requires at least one local tag — with none, it fails
immediately ("Component does not have any versions to publish.") leaving
the state untouched, before any context entry, push or registry call — and
otherwise its candidate (`publishCandidate`, lines 192–196 of
`src/cli/utils.py`) is exactly the Python `max` of all parsed local tags:
an element of the parsed tags whose version bounds every parsed tag's
version from above. -/
theorem publish_requires_versions_and_selects_max :
    (∀ ct env st, st.tags = [] →
      component_publish ct env st =
        (.ret1 "Component does not have any versions to publish.", st)) ∧
    (∀ tg tgs t ts, VersionTag.parse tg = some t → parseTags tgs = some ts →
      publishCandidate (tg :: tgs) = some (pyMaxTag t ts) ∧
      pyMaxTag t ts ∈ t :: ts ∧
      ∀ x ∈ t :: ts, verLe x.version (pyMaxTag t ts).version) := by
  constructor
  · intro ct env st h
    simp only [component_publish, h]
  · intro tg tgs t ts hp hps
    refine ⟨?_, pyMaxTag_mem t ts, pyMaxTag_ub t ts⟩
    simp only [publishCandidate, hp, hps]

/-- C7 witness: the empty-tags failure and the concrete candidate over two
parsed tags. -/
theorem publish_requires_versions_and_selects_max_w :
    component_publish "sources" envA clSt0 =
      (.ret1 "Component does not have any versions to publish.", clSt0) ∧
    publishCandidate ["mezuri/sources/1.0.0", "mezuri/sources/1.1.0"] =
      some (pyMaxTag ⟨"sources", none, ⟨1, 0, 0, 0⟩⟩
        [⟨"sources", none, ⟨1, 1, 0, 0⟩⟩]) :=
  ⟨publish_requires_versions_and_selects_max.1 "sources" envA clSt0 rfl,
    (publish_requires_versions_and_selects_max.2 "mezuri/sources/1.0.0"
      ["mezuri/sources/1.1.0"] ⟨"sources", none, ⟨1, 0, 0, 0⟩⟩
      [⟨"sources", none, ⟨1, 1, 0, 0⟩⟩] (by decide) (by decide)).1⟩

/-! ### Claim C9 -/

theorem gitTagCreate_specWrites (n : String) (st : ClientState) :
    ((gitTagCreate n st).2).specWrites = st.specWrites := by
  unfold gitTagCreate
  split
  · rfl
  · rfl

theorem commitFinish_specWrites (vtag : VersionTag) (current : Version)
    (conc : List String) (st : ClientState) (spec : SpecData) :
    (commitFinish vtag current conc st spec).2.specWrites = st.specWrites + 1 := by
  rcases hdef : spec.definitionFile with _ | f
  · rw [commitFinish_raised hdef]
    rfl
  · by_cases hmem : serializeTag vtag ∈ st.tags ++ conc
    · rw [commitFinish_race hdef vtag current conc st hmem]
    · rw [commitFinish_ok hdef vtag current conc st hmem]

/-- C9: every workflow run inside `component_context` re-serializes the
specification file on every exit path — on success and on failure results
alike.  For `component_commit` this holds whenever the component is
initialized (the spec file exists), including the version-conflict, parse
and missing-definition failure paths; for `component_publish` whenever the
context is entered (initialized, with a non-empty parseable tag list),
including the push-failure path; `component_init` writes on both of its
exit paths.  Exactly one write is performed per run. -/
theorem context_rewrites_spec :
    (∀ ct m ver conc st spec, st.specFile = some spec →
      (component_commit ct m ver conc st).2.specWrites = st.specWrites + 1) ∧
    (∀ ct env st spec tg tgs t ts, st.specFile = some spec →
      st.tags = tg :: tgs → VersionTag.parse tg = some t →
      parseTags tgs = some ts →
      (component_publish ct env st).2.specWrites = st.specWrites + 1) ∧
    (∀ ct ins st, (component_init ct ins st).2.specWrites = st.specWrites + 1) := by
  refine ⟨?_, ?_, ?_⟩
  · intro ct m ver conc st spec hspec
    by_cases hiop : spec.hasIop = true
    · rcases htags : st.tags with _ | ⟨tg, tgs⟩
      · rw [commit_eq_pass_nil hspec hiop htags ct m ver conc]
        exact commitFinish_specWrites _ _ conc st spec
      · rcases hp : VersionTag.parse tg with _ | t <;>
          rcases hps : parseTags tgs with _ | ts
        · have heq : component_commit ct m ver conc st =
              (.raised "ParseError", writeSpec st spec) := by
            simp only [component_commit, hspec, htags, hp, hps]
            rw [if_neg (by simp [hiop])]
          rw [heq]
          rfl
        · have heq : component_commit ct m ver conc st =
              (.raised "ParseError", writeSpec st spec) := by
            simp only [component_commit, hspec, htags, hp, hps]
            rw [if_neg (by simp [hiop])]
          rw [heq]
          rfl
        · have heq : component_commit ct m ver conc st =
              (.raised "ParseError", writeSpec st spec) := by
            simp only [component_commit, hspec, htags, hp, hps]
            rw [if_neg (by simp [hiop])]
          rw [heq]
          rfl
        · by_cases hle : verLe (ver.getD spec.version) (pyMaxTag t ts).version
          · rw [commit_eq_conflict hspec hiop htags hp hps ct m ver conc hle]
            rfl
          · rw [commit_eq_pass_cons hspec hiop htags hp hps ct m ver conc hle]
            exact commitFinish_specWrites _ _ conc st spec
    · have hif : spec.hasIop = false := by
        cases hb : spec.hasIop
        · rfl
        · exact absurd hb hiop
      have heq : component_commit ct m ver conc st =
          (.err "Component IOP declaration not added.", writeSpec st spec) := by
        simp only [component_commit, hspec, hif]
        simp only [if_true]
      rw [heq]
      rfl
  · intro ct env st spec tg tgs t ts hspec htags hp hps
    have hcand : publishCandidate (tg :: tgs) = some (pyMaxTag t ts) := by
      simp only [publishCandidate, hp, hps]
    simp only [component_publish, htags, hcand, hspec]
    by_cases hpush : env.pushOk = false
    · rw [if_pos hpush]
      rfl
    · rw [if_neg hpush]
      by_cases hsc : env.specCommitted = true <;>
        by_cases htp : env.tagPushOk = false <;>
          by_cases hreg : env.registryOk = true <;>
            simp [hsc, htp, hreg, gitTagCreate_specWrites, writeSpec]
  · intro ct ins st
    rcases hsf : st.specFile with _ | spec <;>
      simp [component_init, hsf, writeSpec]

/-- C9 witness: one concrete commit, publish and init run each rewrite the
spec file exactly once. -/
theorem context_rewrites_spec_w :
    (component_commit "sources" "m" none [] clSt0).2.specWrites =
      clSt0.specWrites + 1 ∧
    (component_publish "sources" envA clSt1).2.specWrites =
      clSt1.specWrites + 1 ∧
    (component_init "sources" ⟨"n", "d", none⟩ clSt0).2.specWrites =
      clSt0.specWrites + 1 :=
  ⟨context_rewrites_spec.1 "sources" "m" none [] clSt0 specA (by decide),
    context_rewrites_spec.2.1 "sources" envA clSt1 specA "mezuri/sources/1.0.0"
      [] ⟨"sources", none, ⟨1, 0, 0, 0⟩⟩ [] (by decide) (by decide) (by decide) rfl,
    context_rewrites_spec.2.2 "sources" ⟨"n", "d", none⟩ clSt0⟩

/-! ### Claim C5 -/

/-- C5 (code bug): a publish run in which code and tag were pushed
successfully but the registry raised `RegistryError("boom")`.  The error
message is printed ("Component could not be published: boom."), and the
pushed commit and tag are not rolled back (`codePushes = 1`, the tag
remains pushed) — but the `except RegistryError` handler falls off the end
of `component_publish`, returning Python `None` exactly like the success
path (second conjunct), so the caller gets no non-zero result; `main()` in
`src/cli/source.py` additionally discards the command's return value, so
the process exit status is 0 either way. -/
theorem publish_registry_failure_result :
    component_publish "sources" envFail clSt1 =
      (.retNone (some "Component could not be published: boom."),
        { tags := ["mezuri/sources/1.0.0"], commits := 0, staged := [],
          specFile := some specA, specWrites := 1, codePushes := 1,
          pushedTags := ["mezuri/sources/1.0.0"], registryCalls := [] }) ∧
    (component_publish "sources" envA clSt1).1 = .retNone none := by
  constructor
  · decide
  · decide
